import Mathlib

/-!
Verification of the client-side delivery and synchronization layer of the
iotUx mobile client.

The development embeds, as executable Lean definitions, the code of:
* the change-detection hash (`hashData`, the structural recursive
  implementation, and `hashDataSimple`, the raw `JSON.stringify`-based
  implementation in `src/utils/performance-utils.ts`);
* the durable command queue (`src/utils/command-queue.ts`): enqueue,
  drain (`processQueue`), clear, debounced/immediate persistence;
* the request-deduplication registry and the in-memory auth token cache
  of `src/services/api.ts`, together with the 401 response handler.

JavaScript values handled by the hash functions are embedded as the
inductive type `JData`.  Asynchronous promise-based code is embedded as
explicit state-passing: a promise is identified by a numeric id, and
"two callers share one promise" is expressed as "both callers receive
the same id"; awaiting the durable store or the network is an explicit
event (`tokenResolve`, `coordSettle`, the drain's send oracle).
-/

/-! ## Change detector: the embedded JavaScript value type -/

/-- A JavaScript value as seen by the change-detection hash functions.
`junserializable ty str` stands for a value (such as a cyclic object or a
BigInt) on which serialization throws: `ty` is the value's JavaScript
`typeof` string and `str` its `String(...)` conversion. -/
inductive JData where
  | jnull
  | jundef
  | jbool (b : Bool)
  | jnum (n : Int)
  | jstr (s : String)
  | jarr (xs : List JData)
  | jobj (kvs : List (String × JData))
  | junserializable (ty : String) (str : String)

/-- Is the value `null` or `undefined` (rendered as the empty string inside
JavaScript array-to-string conversion)? -/
def isNullish : JData → Bool
  | .jnull => true
  | .jundef => true
  | _ => false

/-- JavaScript `String(data)`: identity on strings, `"null"`/`"undefined"`
for the nullish values, decimal rendering for numbers, comma-joined
elements for arrays, `"[object Object]"` for plain objects. -/
def jsToString : JData → String
  | .jnull => "null"
  | .jundef => "undefined"
  | .jbool b => if b then "true" else "false"
  | .jnum n => toString n
  | .jstr s => s
  | .junserializable _ str => str
  | .jarr xs =>
      String.intercalate "," (xs.attach.map (fun x =>
        if isNullish x.1 then "" else jsToString x.1))
  | .jobj _ => "[object Object]"
termination_by d => sizeOf d
decreasing_by
  simp_wf
  have := List.sizeOf_lt_of_mem x.2
  omega

/-- JavaScript property access `data[key]` on an object represented as an
association list: the first binding wins, a missing key yields `undefined`. -/
def jsGet (kvs : List (String × JData)) (k : String) : JData :=
  match kvs.lookup k with
  | some v => v
  | none => JData.jundef

/-- A looked-up value is structurally smaller than the association list it
came from (used for the termination of `hashData`). -/
theorem sizeOf_jsGet_lt (kvs : List (String × JData)) (k : String) :
    sizeOf (jsGet kvs k) < 1 + sizeOf kvs := by
  induction kvs with
  | nil => simp [jsGet, List.lookup]
  | cons p t ih =>
    simp only [jsGet, List.lookup]
    by_cases h : (k == p.1)
    · simp [h]
      cases p
      simp
      omega
    · simp [h]
      simp [jsGet] at ih
      omega

/-- The structural change-detection hash (`hashData` of the change detector):
primitives are rendered with `String(...)`; arrays hash each element in
order; objects sort their keys and hash `key:value` pairs; a value whose
traversal throws is caught and rendered as the descriptive fallback
`[hash-error:<typeof>:<timestamp>]` built from the current time `now`
(`Date.now()`). -/
def hashData (now : Nat) : JData → String
  | .jnull => "null"
  | .jundef => "undefined"
  | .jbool b => if b then "true" else "false"
  | .jnum n => toString n
  | .jstr s => s
  | .junserializable ty _str => "[hash-error:" ++ ty ++ ":" ++ toString now ++ "]"
  | .jarr xs => "[" ++ String.intercalate "," (xs.attach.map (fun x => hashData now x.1)) ++ "]"
  | .jobj kvs =>
      "\x7b" ++ String.intercalate ","
        ((List.insertionSort (fun a b => a ≤ b) (kvs.map Prod.fst)).map
          (fun k => k ++ ":" ++ hashData now (jsGet kvs k))) ++ "\x7d"
termination_by d => sizeOf d
decreasing_by
  · simp_wf
    have := List.sizeOf_lt_of_mem x.2
    omega
  · simp_wf
    rename_i kvs
    have := sizeOf_jsGet_lt kvs k
    omega

mutual

/-- `JSON.stringify`: `Except.error` models a thrown exception (cyclic or
otherwise unserializable input), `Except.ok none` models the call returning
the value `undefined` (top-level `undefined`), `Except.ok (some s)` a
produced string.  Inside arrays an omitted element is rendered `"null"`;
inside objects an omitted value drops the key; an exception propagates. -/
def jsonStringify : JData → Except Unit (Option String)
  | .jnull => .ok (some "null")
  | .jundef => .ok none
  | .jbool b => .ok (some (if b then "true" else "false"))
  | .jnum n => .ok (some (toString n))
  | .jstr s => .ok (some ("\"" ++ s ++ "\""))
  | .junserializable _ _ => .error ()
  | .jarr xs =>
      match jsonStringifyArr xs with
      | .ok parts => .ok (some ("[" ++ String.intercalate "," parts ++ "]"))
      | .error e => .error e
  | .jobj kvs =>
      match jsonStringifyObj kvs with
      | .ok parts => .ok (some ("\x7b" ++ String.intercalate "," parts ++ "\x7d"))
      | .error e => .error e
termination_by d => sizeOf d

def jsonStringifyArr : List JData → Except Unit (List String)
  | [] => .ok []
  | x :: xs =>
      match jsonStringify x, jsonStringifyArr xs with
      | .ok s, .ok rest => .ok ((s.getD "null") :: rest)
      | .error e, _ => .error e
      | _, .error e => .error e
termination_by xs => sizeOf xs

def jsonStringifyObj : List (String × JData) → Except Unit (List String)
  | [] => .ok []
  | (k, v) :: kvs =>
      match jsonStringify v, jsonStringifyObj kvs with
      | .ok (some s), .ok rest => .ok (("\"" ++ k ++ "\":" ++ s) :: rest)
      | .ok none, .ok rest => .ok rest
      | .error e, _ => .error e
      | _, .error e => .error e
termination_by kvs => sizeOf kvs

end

/-- The raw change-detection hash of `src/utils/performance-utils.ts`:
`try { return JSON.stringify(data) } catch { return String(data) }`.
The result is `none` when the underlying call returns the JavaScript
value `undefined` instead of a string. -/
def hashDataSimple (data : JData) : Option String :=
  match jsonStringify data with
  | .ok r => r
  | .error _ => some (jsToString data)

/-! ## Durable command queue (`src/utils/command-queue.ts`) -/

/-- The `status` field of a queued command. -/
inductive CmdStatus where
  | pending
  | sending
  | failed
  | success
deriving DecidableEq

/-- One pending instruction to a device (interface `QueuedCommand`). -/
structure QueuedCommand where
  id : String
  deviceId : String
  command : String
  value : Option String
  timestamp : Nat
  retryCount : Nat
  status : CmdStatus
deriving DecidableEq

/-- `MAX_RETRIES` of the command queue. -/
def MAX_RETRIES : Nat := 3

/-- The command constructed by `addCommand`: the id is the
`Date.now()-Math.random()` string supplied by the environment, the
timestamp is the current time, `retryCount` starts at 0 and the status at
`pending`. -/
def mkQueuedCommand (id : String) (now : Nat) (deviceId command : String)
    (value : Option String) : QueuedCommand :=
  { id := id, deviceId := deviceId, command := command, value := value,
    timestamp := now, retryCount := 0, status := .pending }

/-- The in-place mutation `cmd.status = 'sending'; cmd.retryCount++`
performed immediately before a delivery attempt. -/
def attemptOf (cmd : QueuedCommand) : QueuedCommand :=
  { cmd with status := .sending, retryCount := cmd.retryCount + 1 }

/-- The state of a command after a failed delivery attempt:
status set back to `failed`, the retry increment kept. -/
def failedAttempt (cmd : QueuedCommand) : QueuedCommand :=
  { cmd with status := .failed, retryCount := cmd.retryCount + 1 }

/-- In-place mutation of the queue entry (shared object reference) whose id
is `i`. -/
def updateById (queue : List QueuedCommand) (i : String) (c : QueuedCommand) :
    List QueuedCommand :=
  queue.map (fun d => if d.id = i then c else d)

/-- One iteration of the drain loop of `processQueue`, acting on the current
queue for the snapshot entry `cmd`: entries at the retry ceiling are removed
without an attempt; otherwise the entry is marked `sending` with its retry
count incremented, the transport is consulted (`sendOk`, the outcome of
`deviceAPI.sendCommand`), and the entry is removed on success or marked
`failed` on failure. -/
def processCmd (sendOk : QueuedCommand → Bool) (queue : List QueuedCommand)
    (cmd : QueuedCommand) : List QueuedCommand :=
  if MAX_RETRIES ≤ cmd.retryCount then
    queue.filter (fun c => c.id != cmd.id)
  else
    let att := attemptOf cmd
    if sendOk att then
      (updateById queue cmd.id att).filter (fun c => c.id != cmd.id)
    else
      updateById queue cmd.id { att with status := .failed }

/-- The snapshot taken at drain start: commands whose status is `pending`
or `failed`. -/
def pendingSnapshot (queue : List QueuedCommand) : List QueuedCommand :=
  queue.filter (fun c => c.status == .pending || c.status == .failed)

/-- The drain loop: fold the loop body over the snapshot. -/
def drainLoop (sendOk : QueuedCommand → Bool) (queue : List QueuedCommand)
    (snapshot : List QueuedCommand) : List QueuedCommand :=
  snapshot.foldl (processCmd sendOk) queue

/-- The mutable module state of `CommandQueue` together with the durable
store: `queue` is the in-memory list, `processing` the drain re-entrancy
flag, `pendingSave` whether a debounced save timer is scheduled, and
`stored` the content of the durable store under `QUEUE_KEY` (`none` when
the key is absent; the serialized form is kept as the list itself). -/
structure QueueState where
  queue : List QueuedCommand
  processing : Bool
  pendingSave : Bool
  stored : Option (List QueuedCommand)
deriving DecidableEq

/-- `CommandQueue.init()`: hydrate the in-memory queue from the durable
store when the key is present. -/
def initQueue (s : QueueState) : QueueState :=
  match s.stored with
  | some q => { s with queue := q }
  | none => s

/-- `CommandQueue.addCommand`: append the new command and schedule a
debounced save.  The `processQueue()` call it fires is a separate drain
event of the cooperative scheduler. -/
def addCommand (id : String) (now : Nat) (deviceId command : String)
    (value : Option String) (s : QueueState) : QueueState :=
  { s with queue := s.queue ++ [mkQueuedCommand id now deviceId command value],
           pendingSave := true }

/-- `CommandQueue.processQueue`: a no-op while a drain is active or the
queue is empty; otherwise one full drain pass over the pending/failed
snapshot, holding the `processing` flag for its duration, scheduling a
final debounced save. -/
def processQueue (sendOk : QueuedCommand → Bool) (s : QueueState) : QueueState :=
  if s.processing || s.queue.isEmpty then s
  else
    { s with queue := drainLoop sendOk s.queue (pendingSnapshot s.queue),
             processing := false,
             pendingSave := true }

/-- The state mid-way through an active drain pass (at one of the loop's
await points): the first `i` snapshot entries have been processed and the
re-entrancy flag is held. -/
def drainMidState (sendOk : QueuedCommand → Bool) (s : QueueState) (i : Nat) :
    QueueState :=
  { s with processing := true,
           queue := drainLoop sendOk s.queue ((pendingSnapshot s.queue).take i) }

/-- `CommandQueue.clearQueue`: empty the queue, cancel any pending
debounced save, and write the (empty) queue to the durable store
immediately (`saveQueueImmediate`). -/
def clearQueue (s : QueueState) : QueueState :=
  { s with queue := [], pendingSave := false, stored := some [] }

/-- The debounce timer firing: persist the current queue and clear the
timer.  A no-op when no save is scheduled. -/
def timerFire (s : QueueState) : QueueState :=
  if s.pendingSave then { s with stored := some s.queue, pendingSave := false }
  else s

/-- A process restart: the module state is re-created fresh while the
durable store survives. -/
def restartProcess (s : QueueState) : QueueState :=
  { queue := [], processing := false, pendingSave := false, stored := s.stored }

/-- `CommandQueue.getQueuedCommands()`: a defensive copy of the queue. -/
def getQueuedCommands (s : QueueState) : List QueuedCommand :=
  s.queue

/-- `CommandQueue.getPendingCount()`. -/
def getPendingCount (s : QueueState) : Nat :=
  (s.queue.filter (fun c => c.status == .pending || c.status == .failed)).length

/-- The queue entries carrying a given id. -/
def entriesWithId (q : List QueuedCommand) (i : String) : List QueuedCommand :=
  q.filter (fun c => c.id == i)

/-- The ids of the queue's entries. -/
def idsOf (q : List QueuedCommand) : List String :=
  q.map (fun c => c.id)

/-- The queue states reachable from a fresh install (empty queue, empty
store) by the operations of `CommandQueue` and the debounce timer. -/
inductive Reachable : QueueState → Prop
  | init0 : Reachable { queue := [], processing := false, pendingSave := false, stored := none }
  | add (id : String) (now : Nat) (deviceId command : String) (value : Option String)
      {s : QueueState} (h : Reachable s) :
      Reachable (addCommand id now deviceId command value s)
  | drain (sendOk : QueuedCommand → Bool) {s : QueueState} (h : Reachable s) :
      Reachable (processQueue sendOk s)
  | clear {s : QueueState} (h : Reachable s) : Reachable (clearQueue s)
  | hydrate {s : QueueState} (h : Reachable s) : Reachable (initQueue s)
  | timer {s : QueueState} (h : Reachable s) : Reachable (timerFire s)

/-- A transport that fails every delivery attempt (no network available). -/
def failSend : QueuedCommand → Bool := fun _ => false

/-- A sequence of drain passes, each against its own transport outcome. -/
def drainSeq : List (QueuedCommand → Bool) → QueueState → QueueState
  | [], s => s
  | o :: os, s => drainSeq os (processQueue o s)

/-- The scenario state: a fresh install after `addCommand("D1", "ARM")`. -/
def demoState1 : QueueState :=
  addCommand "id1" 0 "D1" "ARM" none
    { queue := [], processing := false, pendingSave := false, stored := none }

/-! ## Request deduplication registry (`src/services/api.ts`) -/

/-- `REQUEST_CACHE_TTL` (milliseconds). -/
def REQUEST_CACHE_TTL : Nat := 1000

/-- `getCacheKey`: the normalized `method:url` registry key. -/
def getCacheKey (url : String) (method : String) : String :=
  method ++ ":" ++ url

/-- The registry as seen through one fixed key: `registry` holds the
in-flight promise's id and registration timestamp, `nextId` mints promise
ids, and `execs` counts executions of the underlying network factory
(`api.get`). -/
structure CoordState where
  registry : Option (Nat × Nat)
  nextId : Nat
  execs : Nat
deriving DecidableEq

/-- `cleanupCache`: drop the entry once stale beyond the TTL
(`now - timestamp > REQUEST_CACHE_TTL`). -/
def cleanupCache (now : Nat) (s : CoordState) : CoordState :=
  match s.registry with
  | some (_, ts) =>
      if REQUEST_CACHE_TTL < now - ts then { s with registry := none } else s
  | none => s

/-- The shared body of `getMyDevices` / `getDeviceStatus` /
`getDeviceCurrentStatus` / `getDeviceAlerts` for their key: an unexpired
registered promise is returned as is; otherwise the factory runs
(`execs` increments) and the new promise is registered through
`cleanupAndCache` after the stale sweep. -/
def coordCall (now : Nat) (s : CoordState) : Nat × CoordState :=
  match s.registry with
  | some (pid, ts) =>
      if now - ts < REQUEST_CACHE_TTL then (pid, s)
      else
        let s1 := cleanupCache now s
        (s1.nextId, { registry := some (s1.nextId, now), nextId := s1.nextId + 1,
                      execs := s1.execs + 1 })
  | none =>
      let s1 := cleanupCache now s
      (s1.nextId, { registry := some (s1.nextId, now), nextId := s1.nextId + 1,
                    execs := s1.execs + 1 })

/-- The `promise.finally(() => pendingRequests.delete(key))` handler run
when a promise created for this key settles (fulfilled or rejected): it
deletes whatever entry the key currently holds. -/
def coordSettle (s : CoordState) : CoordState :=
  { s with registry := none }

/-- A burst of calls at the given times (no settlement in between). -/
def coordCalls : List Nat → CoordState → List Nat × CoordState
  | [], s => ([], s)
  | t :: ts, s =>
      let r := coordCall t s
      let rest := coordCalls ts r.2
      (r.1 :: rest.1, rest.2)

/-! ## In-memory auth token cache and the 401 handler (`src/services/api.ts`) -/

/-- The module state of the credential cache: `cachedAuthToken` is the
in-memory token (JavaScript `null` is `none`, which also encodes
"uninitialized"), `tokenCachePromise` the memoized in-flight durable read,
`nextId` mints promise ids and `durableReads` counts `AsyncStorage.getItem`
calls for the token key. -/
structure TokenCacheState where
  cachedAuthToken : Option String
  tokenCachePromise : Option Nat
  nextId : Nat
  durableReads : Nat
deriving DecidableEq

/-- What a token read hands its caller: an immediate value, or a shared
promise to await. -/
inductive TokenResult where
  | value (t : Option String)
  | promise (pid : Nat)
deriving DecidableEq

/-- `initializeTokenCache`: return the cached value if initialized; else
join the in-flight read if one exists; else start the single durable read
and memoize its promise. -/
def initializeTokenCache (s : TokenCacheState) : TokenResult × TokenCacheState :=
  match s.cachedAuthToken with
  | some t => (.value (some t), s)
  | none =>
      match s.tokenCachePromise with
      | some pid => (.promise pid, s)
      | none =>
          (.promise s.nextId,
           { s with tokenCachePromise := some s.nextId, nextId := s.nextId + 1,
                    durableReads := s.durableReads + 1 })

/-- `updateCachedToken`: overwrite the in-memory token and drop the
memoized initialization promise. -/
def updateCachedToken (t : Option String) (s : TokenCacheState) : TokenCacheState :=
  { s with cachedAuthToken := t, tokenCachePromise := none }

/-- The in-flight durable read resolving with the given token: the `.then`
handler stores it in memory. -/
def tokenResolve (tok : Option String) (s : TokenCacheState) : TokenCacheState :=
  { s with cachedAuthToken := tok }

/-- `n` successive token reads with no interleaved resolution. -/
def tokenCalls : Nat → TokenCacheState → List TokenResult × TokenCacheState
  | 0, s => ([], s)
  | n + 1, s =>
      let r := initializeTokenCache s
      let rest := tokenCalls n r.2
      (r.1 :: rest.1, rest.2)

/-- The primitive steps the 401 response handler performs, in order. -/
inductive AuthAction where
  | durableRemove
  | memoryClear
deriving DecidableEq

/-- The credential cache together with the durable store's token and user
entries. -/
structure AuthState where
  cache : TokenCacheState
  storedToken : Option String
  storedUser : Option String
deriving DecidableEq

/-- The 401 branch of the response interceptor:
`await AsyncStorage.multiRemove([AUTH_TOKEN_KEY, USER_DATA_KEY])` completes
first, then `updateCachedToken(null)` clears the memory cache.  The second
component records the order in which the two effects occur. -/
def handle401 (s : AuthState) : AuthState × List AuthAction :=
  let s1 : AuthState := { s with storedToken := none, storedUser := none }
  let s2 : AuthState := { s1 with cache := updateCachedToken none s1.cache }
  (s2, [AuthAction.durableRemove, AuthAction.memoryClear])

/-- A complete token read against the current durable store: an initialized
cache answers from memory; otherwise the durable read runs (or is joined)
and resolves with the store's current content. -/
def readTokenRound (s : AuthState) : Option String × AuthState :=
  match initializeTokenCache s.cache with
  | (.value v, c) => (v, { s with cache := c })
  | (.promise _, c) => (s.storedToken, { s with cache := tokenResolve s.storedToken c })

/-- A concrete authenticated state: token `"tok-old"` cached and stored. -/
def authDemo : AuthState :=
  { cache := { cachedAuthToken := some "tok-old", tokenCachePromise := none,
               nextId := 1, durableReads := 1 },
    storedToken := some "tok-old", storedUser := some "user" }

/-! ## Theorems: the change detector -/

theorem hashData_jnull (now : Nat) : hashData now .jnull = "null" := by
  simp [hashData]

theorem hashData_jundef (now : Nat) : hashData now .jundef = "undefined" := by
  simp [hashData]

theorem hashData_jnum (now : Nat) (n : Int) : hashData now (.jnum n) = toString n := by
  simp [hashData]

theorem hashData_jstr (now : Nat) (s : String) : hashData now (.jstr s) = s := by
  simp [hashData]

theorem hashData_junserializable (now : Nat) (ty str : String) :
    hashData now (.junserializable ty str) =
      "[hash-error:" ++ ty ++ ":" ++ toString now ++ "]" := by
  simp [hashData]

theorem hashData_jarr (now : Nat) (xs : List JData) :
    hashData now (.jarr xs) =
      "[" ++ String.intercalate "," (xs.map (hashData now)) ++ "]" := by
  rw [hashData]
  simp [List.attach_map_coe]

theorem hashData_jobj (now : Nat) (kvs : List (String × JData)) :
    hashData now (.jobj kvs) =
      "\x7b" ++ String.intercalate ","
        ((List.insertionSort (fun a b => a ≤ b) (kvs.map Prod.fst)).map
          (fun k => k ++ ":" ++ hashData now (jsGet kvs k))) ++ "\x7d" := by
  rw [hashData]

/-- `List.lookup` only depends on the underlying key-value set when the
keys are distinct. -/
theorem lookup_eq_of_perm {α : Type} {kvs1 kvs2 : List (String × α)}
    (h : kvs1.Perm kvs2) (hnd : (kvs1.map Prod.fst).Nodup) (k : String) :
    kvs1.lookup k = kvs2.lookup k := by
  induction h with
  | nil => rfl
  | cons x _ ih =>
    simp only [List.lookup]
    cases hx : (k == x.1) with
    | true => rfl
    | false =>
      apply ih
      simp at hnd
      exact hnd.2
  | swap x y l =>
    simp only [List.lookup]
    cases hx : (k == x.1) with
    | true =>
      cases hy : (k == y.1) with
      | true =>
        exfalso
        simp at hnd
        exact hnd.1.1 ((eq_of_beq hy).symm.trans (eq_of_beq hx))
      | false => rfl
    | false =>
      cases hy : (k == y.1) with
      | true => rfl
      | false => rfl
  | trans h1 _ ih1 ih2 =>
    rw [ih1 hnd, ih2 (((h1.map Prod.fst).nodup_iff).mp hnd)]

/-- Sorting by the string order is invariant under permutation of the
input. -/
theorem insertionSort_eq_of_perm {l1 l2 : List String} (h : l1.Perm l2) :
    List.insertionSort (fun a b => a ≤ b) l1 =
      List.insertionSort (fun a b => a ≤ b) l2 := by
  apply List.eq_of_perm_of_sorted (r := fun a b : String => a ≤ b)
  · exact (List.perm_insertionSort _ l1).trans (h.trans (List.perm_insertionSort _ l2).symm)
  · exact List.sorted_insertionSort _ l1
  · exact List.sorted_insertionSort _ l2

/-- Appending the same string on the left is cancellable. -/
theorem string_append_cancel_left {s t u : String} (h : s ++ t = s ++ u) : t = u := by
  have hd : s.data ++ t.data = s.data ++ u.data := by
    have := congrArg String.data h
    simpa [String.data_append] using this
  exact String.ext (List.append_cancel_left hd)

/-- Appending the same string on the right is cancellable. -/
theorem string_append_cancel_right {s t u : String} (h : t ++ s = u ++ s) : t = u := by
  have hd : t.data ++ s.data = u.data ++ s.data := by
    have := congrArg String.data h
    simpa [String.data_append] using this
  exact String.ext (List.append_cancel_right hd)

/-- A singleton list intercalates to its element. -/
theorem intercalate_single (sep s : String) : String.intercalate sep [s] = s := by
  simp [String.intercalate, String.intercalate.go]

/-- C5 counterexample: the raw `JSON.stringify`-based `hashData` of
`src/utils/performance-utils.ts` is sensitive to object key insertion
order, so the claim does not hold for every change-detection hash
implementation present in the program. -/
theorem hash_key_order_counterexample :
    hashDataSimple (JData.jobj [("a", JData.jnum 1), ("b", JData.jnum 2)]) ≠
      hashDataSimple (JData.jobj [("b", JData.jnum 2), ("a", JData.jnum 1)]) := by
  simp only [hashDataSimple, jsonStringify, jsonStringifyObj]
  decide

/-- C5 (amended): the structural recursive `hashData` (the change
detector's canonical hash) is key-order independent over objects with
distinct keys and order-sensitive over array elements; the raw
`JSON.stringify`-based implementation in `performance-utils.ts` is
key-order sensitive. -/
theorem hash_canonicalization :
    (∀ (now : Nat) (kvs1 kvs2 : List (String × JData)), kvs1.Perm kvs2 →
        (kvs1.map Prod.fst).Nodup →
        hashData now (JData.jobj kvs1) = hashData now (JData.jobj kvs2)) ∧
    hashData 0 (JData.jarr [JData.jnum 1, JData.jnum 2]) ≠
      hashData 0 (JData.jarr [JData.jnum 2, JData.jnum 1]) ∧
    hashDataSimple (JData.jobj [("a", JData.jnum 1), ("b", JData.jnum 2)]) ≠
      hashDataSimple (JData.jobj [("b", JData.jnum 2), ("a", JData.jnum 1)]) := by
  refine ⟨?_, ?_, ?_⟩
  · intro now kvs1 kvs2 hperm hnd
    rw [hashData_jobj, hashData_jobj]
    have hkeys : List.insertionSort (fun a b => a ≤ b) (kvs2.map Prod.fst) =
        List.insertionSort (fun a b => a ≤ b) (kvs1.map Prod.fst) :=
      insertionSort_eq_of_perm ((hperm.map Prod.fst).symm)
    rw [hkeys]
    have hlook : ∀ k, kvs1.lookup k = kvs2.lookup k :=
      fun k => lookup_eq_of_perm hperm hnd k
    have hmap : (List.insertionSort (fun a b => a ≤ b) (kvs1.map Prod.fst)).map
          (fun k => k ++ ":" ++ hashData now (jsGet kvs1 k)) =
        (List.insertionSort (fun a b => a ≤ b) (kvs1.map Prod.fst)).map
          (fun k => k ++ ":" ++ hashData now (jsGet kvs2 k)) := by
      apply List.map_congr_left
      intro k _
      have hg : jsGet kvs1 k = jsGet kvs2 k := by
        unfold jsGet
        rw [hlook k]
      rw [hg]
    rw [hmap]
  · rw [hashData_jarr, hashData_jarr]
    simp only [hashData_jnum, List.map]
    decide
  · simp only [hashDataSimple, jsonStringify, jsonStringifyObj]
    decide

/-- C5 witness: the two insertion orders of `{a:1, b:2}` hash equally
under the canonical hash. -/
theorem hash_canonicalization_witness :
    hashData 0 (JData.jobj [("a", JData.jnum 1), ("b", JData.jnum 2)]) =
      hashData 0 (JData.jobj [("b", JData.jnum 2), ("a", JData.jnum 1)]) :=
  hash_canonicalization.1 0 _ _ (List.Perm.swap _ _ _) (by decide)

/-- C7: the structural hash never propagates a serialization failure: the
failing value is rendered as the `[hash-error:<typeof>:<timestamp>]`
fallback, distinct timestamp renderings give distinct fallback hashes
(each failed attempt is treated as changed), and a failing child inside an
array is contained rather than thrown. -/
theorem hash_fallback_no_throw :
    (∀ (now : Nat) (ty str : String),
        hashData now (JData.junserializable ty str) =
          "[hash-error:" ++ ty ++ ":" ++ toString now ++ "]") ∧
    (∀ (now now' : Nat) (ty str : String), toString now ≠ toString now' →
        hashData now (JData.junserializable ty str) ≠
          hashData now' (JData.junserializable ty str)) ∧
    (∀ (now : Nat) (ty str : String),
        hashData now (JData.jarr [JData.junserializable ty str]) =
          "[" ++ ("[hash-error:" ++ ty ++ ":" ++ toString now ++ "]") ++ "]") := by
  refine ⟨fun now ty str => hashData_junserializable now ty str, ?_, ?_⟩
  · intro now now' ty str hne heq
    rw [hashData_junserializable, hashData_junserializable] at heq
    exact hne (string_append_cancel_left (string_append_cancel_right heq))
  · intro now ty str
    rw [hashData_jarr]
    simp only [List.map, hashData_junserializable]
    rw [intercalate_single]

/-- C7 witness: two failed attempts at times 0 and 1 yield different
fallback hashes. -/
theorem hash_fallback_no_throw_witness :
    hashData 0 (JData.junserializable "object" "[object Object]") ≠
      hashData 1 (JData.junserializable "object" "[object Object]") :=
  hash_fallback_no_throw.2.1 0 1 "object" "[object Object]" (by decide)

/-! ## Theorems: the durable command queue -/

theorem entriesWithId_eq_nil {q : List QueuedCommand} {i : String}
    (h : entriesWithId q i = []) : ∀ x ∈ q, x.id ≠ i := by
  induction q with
  | nil => simp
  | cons d t ih =>
    simp only [entriesWithId, List.filter] at h
    cases hd : (d.id == i) with
    | true =>
      rw [hd] at h
      simp at h
    | false =>
      rw [hd] at h
      intro x hx
      rcases List.mem_cons.mp hx with rfl | hx2
      · exact fun he => by simp [he] at hd
      · exact ih h x hx2

theorem entriesWithId_filter (q : List QueuedCommand) (p : QueuedCommand → Bool) (i : String) :
    entriesWithId (q.filter p) i = (entriesWithId q i).filter p := by
  induction q with
  | nil => rfl
  | cons d t ih =>
    simp only [entriesWithId, List.filter] at ih ⊢
    cases hp : p d with
    | true =>
      cases hd : (d.id == i) with
      | true => simp [List.filter, hp, hd, ih]
      | false => simp [List.filter, hp, hd, ih]
    | false =>
      cases hd : (d.id == i) with
      | true => simp [List.filter, hp, hd, ih]
      | false => simp [List.filter, hp, hd, ih]

theorem entriesWithId_filter_ne_self (q : List QueuedCommand) (j : String) :
    entriesWithId (q.filter (fun c => c.id != j)) j = [] := by
  induction q with
  | nil => rfl
  | cons d t ih =>
    simp only [List.filter]
    cases hd : (d.id != j) with
    | false => exact ih
    | true =>
      have h2 : (d.id == j) = false := by
        simpa [bne] using hd
      simp only [entriesWithId, List.filter] at ih ⊢
      rw [h2]
      exact ih

theorem entriesWithId_updateById_ne (q : List QueuedCommand) (i j : String)
    (v : QueuedCommand) (hv : v.id = j) (hij : i ≠ j) :
    entriesWithId (updateById q j v) i = entriesWithId q i := by
  have hvi : (v.id == i) = false := by
    rw [hv]
    exact beq_eq_false_iff_ne.mpr (fun he => hij he.symm)
  induction q with
  | nil => rfl
  | cons d t ih =>
    simp only [updateById, List.map] at ih ⊢
    by_cases hd : d.id = j
    · have hdi : (d.id == i) = false := by
        rw [hd]
        exact beq_eq_false_iff_ne.mpr (fun he => hij he.symm)
      simp only [entriesWithId, List.filter_cons] at ih ⊢
      rw [if_pos hd]
      simp only [hvi, hdi, Bool.false_eq_true, if_false]
      exact ih
    · simp only [entriesWithId, List.filter_cons] at ih ⊢
      rw [if_neg hd]
      cases hdi : (d.id == i) with
      | true =>
        simp only [hdi, if_true]
        rw [ih]
      | false =>
        simp only [hdi, Bool.false_eq_true, if_false]
        exact ih

theorem entriesWithId_updateById_self (q : List QueuedCommand) (j : String)
    (v : QueuedCommand) (hv : v.id = j) :
    entriesWithId (updateById q j v) j = (entriesWithId q j).map (fun _ => v) := by
  have hvj : (v.id == j) = true := by
    rw [hv]
    exact beq_self_eq_true j
  induction q with
  | nil => rfl
  | cons d t ih =>
    simp only [updateById, List.map] at ih ⊢
    by_cases hd : d.id = j
    · have hdj : (d.id == j) = true := by
        rw [hd]
        exact beq_self_eq_true j
      simp only [entriesWithId, List.filter_cons] at ih ⊢
      rw [if_pos hd]
      simp only [hvj, hdj, if_true, List.map]
      rw [ih]
    · have hdj : (d.id == j) = false := beq_eq_false_iff_ne.mpr hd
      simp only [entriesWithId, List.filter_cons] at ih ⊢
      rw [if_neg hd]
      simp only [hdj, Bool.false_eq_true, if_false]
      exact ih

theorem failedAttempt_eq (cmd : QueuedCommand) :
    { attemptOf cmd with status := CmdStatus.failed } = failedAttempt cmd := rfl

theorem entriesWithId_processCmd_ne (o : QueuedCommand → Bool)
    (q : List QueuedCommand) (cmd : QueuedCommand) (i : String) (h : i ≠ cmd.id) :
    entriesWithId (processCmd o q cmd) i = entriesWithId q i := by
  unfold processCmd
  by_cases hm : MAX_RETRIES ≤ cmd.retryCount
  · rw [if_pos hm, entriesWithId_filter]
    have : (entriesWithId q i).filter (fun c => c.id != cmd.id) = entriesWithId q i := by
      apply List.filter_eq_self.mpr
      intro c hc
      have hci : (c.id == i) = true := (List.mem_filter.mp hc).2
      rw [eq_of_beq hci]
      exact bne_iff_ne.mpr h
    rw [this]
  · rw [if_neg hm]
    by_cases ho : o (attemptOf cmd)
    · rw [if_pos ho, entriesWithId_filter,
        entriesWithId_updateById_ne q i cmd.id (attemptOf cmd) rfl h]
      apply List.filter_eq_self.mpr
      intro c hc
      have hci : (c.id == i) = true := (List.mem_filter.mp hc).2
      rw [eq_of_beq hci]
      exact bne_iff_ne.mpr h
    · rw [if_neg ho]
      exact entriesWithId_updateById_ne q i cmd.id (failedAttempt cmd) rfl h

theorem entriesWithId_processCmd_self (o : QueuedCommand → Bool)
    (q : List QueuedCommand) (cmd : QueuedCommand)
    (hq : entriesWithId q cmd.id = [cmd]) :
    entriesWithId (processCmd o q cmd) cmd.id =
      if MAX_RETRIES ≤ cmd.retryCount then []
      else if o (attemptOf cmd) then [] else [failedAttempt cmd] := by
  unfold processCmd
  by_cases hm : MAX_RETRIES ≤ cmd.retryCount
  · rw [if_pos hm, if_pos hm]
    exact entriesWithId_filter_ne_self q cmd.id
  · rw [if_neg hm, if_neg hm]
    by_cases ho : o (attemptOf cmd)
    · rw [if_pos ho, if_pos ho]
      exact entriesWithId_filter_ne_self _ cmd.id
    · rw [if_neg ho, if_neg ho, failedAttempt_eq,
        entriesWithId_updateById_self q cmd.id (failedAttempt cmd) rfl, hq]
      rfl

theorem entriesWithId_processCmd_nil (o : QueuedCommand → Bool)
    (q : List QueuedCommand) (cmd : QueuedCommand) (i : String)
    (hq : entriesWithId q i = []) :
    entriesWithId (processCmd o q cmd) i = [] := by
  by_cases hi : i = cmd.id
  · subst hi
    unfold processCmd
    by_cases hm : MAX_RETRIES ≤ cmd.retryCount
    · rw [if_pos hm]
      exact entriesWithId_filter_ne_self q cmd.id
    · rw [if_neg hm]
      by_cases ho : o (attemptOf cmd)
      · rw [if_pos ho]
        exact entriesWithId_filter_ne_self _ cmd.id
      · rw [if_neg ho, failedAttempt_eq,
          entriesWithId_updateById_self q cmd.id (failedAttempt cmd) rfl, hq]
        rfl
  · rw [entriesWithId_processCmd_ne o q cmd i hi]
    exact hq

theorem entriesWithId_drainLoop_ne (o : QueuedCommand → Bool)
    (snap : List QueuedCommand) (q : List QueuedCommand) (i : String)
    (h : ∀ x ∈ snap, x.id ≠ i) :
    entriesWithId (drainLoop o q snap) i = entriesWithId q i := by
  induction snap generalizing q with
  | nil => rfl
  | cons x t ih =>
    simp only [drainLoop, List.foldl_cons] at ih ⊢
    rw [ih _ (fun y hy => h y (List.mem_cons_of_mem x hy))]
    exact entriesWithId_processCmd_ne o q x i
      (fun he => h x (List.mem_cons_self x t) he.symm)

theorem entriesWithId_drainLoop_nil (o : QueuedCommand → Bool)
    (snap : List QueuedCommand) (q : List QueuedCommand) (i : String)
    (hq : entriesWithId q i = []) :
    entriesWithId (drainLoop o q snap) i = [] := by
  induction snap generalizing q with
  | nil => exact hq
  | cons x t ih =>
    simp only [drainLoop, List.foldl_cons] at ih ⊢
    exact ih _ (entriesWithId_processCmd_nil o q x i hq)

theorem entriesWithId_singleton_split {l : List QueuedCommand} {i : String}
    {c : QueuedCommand} (h : entriesWithId l i = [c]) :
    ∃ l1 l2, l = l1 ++ c :: l2 ∧ (∀ x ∈ l1, x.id ≠ i) ∧ (∀ x ∈ l2, x.id ≠ i) := by
  induction l with
  | nil => exact absurd h (by simp [entriesWithId])
  | cons d t ih =>
    simp only [entriesWithId, List.filter_cons] at h
    cases hd : (d.id == i) with
    | true =>
      rw [hd, if_pos rfl] at h
      have hdc : d = c := (List.cons_eq_cons.mp h).1
      have ht : entriesWithId t i = [] := (List.cons_eq_cons.mp h).2
      exact ⟨[], t, by rw [hdc]; rfl, by simp, entriesWithId_eq_nil ht⟩
    | false =>
      rw [hd, if_neg (by simp)] at h
      obtain ⟨l1, l2, heq, h1, h2⟩ := ih h
      exact ⟨d :: l1, l2, by rw [heq]; rfl,
        fun x hx => by
          rcases List.mem_cons.mp hx with rfl | hx2
          · exact fun he => by simp [he] at hd
          · exact h1 x hx2,
        h2⟩

theorem entriesWithId_pendingSnapshot (q : List QueuedCommand) (c : QueuedCommand)
    (hq : entriesWithId q c.id = [c])
    (hst : c.status = CmdStatus.pending ∨ c.status = CmdStatus.failed) :
    entriesWithId (pendingSnapshot q) c.id = [c] := by
  unfold pendingSnapshot entriesWithId
  rw [List.filter_comm]
  have : List.filter (fun c' => c'.id == c.id) q = [c] := hq
  rw [this]
  simp only [List.filter_cons, List.filter_nil]
  rcases hst with hst | hst <;> rw [hst] <;> rfl

/-- One full drain pass acting on the unique queue entry with `c`'s id:
an entry at the retry ceiling is removed; otherwise it is attempted once
(retry count incremented) and removed on success or left `failed` on
failure. -/
theorem drainLoop_pass_progress (o : QueuedCommand → Bool)
    (q : List QueuedCommand) (c : QueuedCommand)
    (hq : entriesWithId q c.id = [c])
    (hst : c.status = CmdStatus.pending ∨ c.status = CmdStatus.failed) :
    entriesWithId (drainLoop o q (pendingSnapshot q)) c.id =
      if MAX_RETRIES ≤ c.retryCount then []
      else if o (attemptOf c) then [] else [failedAttempt c] := by
  obtain ⟨l1, l2, heq, h1, h2⟩ :=
    entriesWithId_singleton_split (entriesWithId_pendingSnapshot q c hq hst)
  rw [heq]
  have hsplit : drainLoop o q (l1 ++ c :: l2) =
      drainLoop o (processCmd o (drainLoop o q l1) c) l2 := by
    unfold drainLoop
    rw [List.foldl_append, List.foldl_cons]
  rw [hsplit]
  have hq1 : entriesWithId (drainLoop o q l1) c.id = [c] := by
    rw [entriesWithId_drainLoop_ne o l1 q c.id h1]
    exact hq
  rw [entriesWithId_drainLoop_ne o l2 _ c.id h2]
  exact entriesWithId_processCmd_self o (drainLoop o q l1) c hq1

theorem queue_ne_nil_of_entries {q : List QueuedCommand} {i : String}
    {c : QueuedCommand} (hq : entriesWithId q i = [c]) : q.isEmpty = false := by
  cases q with
  | nil => exact absurd hq (by simp [entriesWithId])
  | cons d t => rfl

theorem processQueue_processing (o : QueuedCommand → Bool) (s : QueueState) :
    (processQueue o s).processing = s.processing := by
  unfold processQueue
  by_cases hg : (s.processing || s.queue.isEmpty) = true
  · rw [if_pos hg]
  · rw [if_neg hg]
    simp only [Bool.or_eq_true] at hg
    push_neg at hg
    simp [Bool.not_eq_true] at hg
    rw [hg.1]

theorem processQueue_progress (o : QueuedCommand → Bool) (s : QueueState)
    (c : QueuedCommand) (hp : s.processing = false)
    (hq : entriesWithId s.queue c.id = [c])
    (hst : c.status = CmdStatus.pending ∨ c.status = CmdStatus.failed) :
    entriesWithId (processQueue o s).queue c.id =
      if MAX_RETRIES ≤ c.retryCount then []
      else if o (attemptOf c) then [] else [failedAttempt c] := by
  unfold processQueue
  rw [hp, queue_ne_nil_of_entries hq]
  simp only [Bool.or_self, Bool.false_eq_true, if_false]
  exact drainLoop_pass_progress o s.queue c hq hst

theorem processQueue_absent (o : QueuedCommand → Bool) (s : QueueState) (i : String)
    (hq : entriesWithId s.queue i = []) :
    entriesWithId (processQueue o s).queue i = [] := by
  unfold processQueue
  by_cases hg : (s.processing || s.queue.isEmpty) = true
  · rw [if_pos hg]
    exact hq
  · rw [if_neg hg]
    exact entriesWithId_drainLoop_nil o _ s.queue i hq

/-- Within four drain passes (any transport outcomes) a pending or failed
command is gone from the queue: it either succeeds (and is removed) or
runs out of retries (and is dropped). -/
theorem four_drains_remove (o1 o2 o3 o4 : QueuedCommand → Bool)
    (s : QueueState) (c : QueuedCommand) (hp : s.processing = false)
    (hq : entriesWithId s.queue c.id = [c])
    (hst : c.status = CmdStatus.pending ∨ c.status = CmdStatus.failed) :
    entriesWithId
      (processQueue o4 (processQueue o3 (processQueue o2 (processQueue o1 s)))).queue
      c.id = [] := by
  have habs3 : ∀ (s' : QueueState), entriesWithId s'.queue c.id = [] →
      entriesWithId (processQueue o4 (processQueue o3 (processQueue o2 s'))).queue c.id = [] :=
    fun s' h => processQueue_absent o4 _ _ (processQueue_absent o3 _ _ (processQueue_absent o2 _ _ h))
  have habs2 : ∀ (s' : QueueState), entriesWithId s'.queue c.id = [] →
      entriesWithId (processQueue o4 (processQueue o3 s')).queue c.id = [] :=
    fun s' h => processQueue_absent o4 _ _ (processQueue_absent o3 _ _ h)
  have hstep : ∀ (o : QueuedCommand → Bool) (s' : QueueState) (d : QueuedCommand),
      s'.processing = false → entriesWithId s'.queue d.id = [d] →
      (d.status = CmdStatus.pending ∨ d.status = CmdStatus.failed) →
      entriesWithId (processQueue o s').queue d.id = [] ∨
        (entriesWithId (processQueue o s').queue d.id = [failedAttempt d] ∧
          ¬ MAX_RETRIES ≤ d.retryCount) := by
    intro o s' d hp' hq' hst'
    rw [processQueue_progress o s' d hp' hq' hst']
    by_cases hm : MAX_RETRIES ≤ d.retryCount
    · rw [if_pos hm]
      exact Or.inl rfl
    · rw [if_neg hm]
      by_cases ho : o (attemptOf d)
      · rw [if_pos ho]
        exact Or.inl rfl
      · rw [if_neg ho]
        exact Or.inr ⟨rfl, hm⟩
  have hid1 : (failedAttempt c).id = c.id := rfl
  rcases hstep o1 s c hp hq hst with h1 | ⟨h1, hm1⟩
  · exact habs3 _ h1
  · set s1 := processQueue o1 s with hs1
    have hp1 : s1.processing = false := by rw [hs1, processQueue_processing, hp]
    have hq1 : entriesWithId s1.queue (failedAttempt c).id = [failedAttempt c] := by
      rw [hid1]
      exact h1
    rcases hstep o2 s1 (failedAttempt c) hp1 hq1 (Or.inr rfl) with h2 | ⟨h2, _⟩
    · rw [hid1] at h2
      exact habs2 _ h2
    · set s2 := processQueue o2 s1 with hs2
      have hp2 : s2.processing = false := by rw [hs2, processQueue_processing, hp1]
      have hq2 : entriesWithId s2.queue (failedAttempt (failedAttempt c)).id =
          [failedAttempt (failedAttempt c)] := by
        exact h2
      rcases hstep o3 s2 (failedAttempt (failedAttempt c)) hp2 hq2 (Or.inr rfl) with h3 | ⟨h3, _⟩
      · exact processQueue_absent o4 _ _ h3
      · set s3 := processQueue o3 s2 with hs3
        have hp3 : s3.processing = false := by rw [hs3, processQueue_processing, hp2]
        have hq3 : entriesWithId s3.queue
            (failedAttempt (failedAttempt (failedAttempt c))).id =
            [failedAttempt (failedAttempt (failedAttempt c))] := h3
        have hmax : MAX_RETRIES ≤ (failedAttempt (failedAttempt (failedAttempt c))).retryCount := by
          simp [failedAttempt, MAX_RETRIES]
        rcases hstep o4 s3 (failedAttempt (failedAttempt (failedAttempt c))) hp3 hq3
            (Or.inr rfl) with h4 | ⟨_, hm4⟩
        · exact h4
        · exact absurd hmax hm4

theorem processCmd_mem (o : QueuedCommand → Bool) (q : List QueuedCommand)
    (cmd : QueuedCommand) (d : QueuedCommand) (hd : d ∈ processCmd o q cmd) :
    d ∈ q ∨ (cmd.retryCount < MAX_RETRIES ∧
      (d = attemptOf cmd ∨ d = failedAttempt cmd)) := by
  unfold processCmd at hd
  by_cases hm : MAX_RETRIES ≤ cmd.retryCount
  · rw [if_pos hm] at hd
    exact Or.inl (List.mem_of_mem_filter hd)
  · rw [if_neg hm] at hd
    by_cases ho : o (attemptOf cmd)
    · rw [if_pos ho] at hd
      have hd2 := List.mem_of_mem_filter hd
      simp only [updateById, List.mem_map] at hd2
      obtain ⟨e, _, he⟩ := hd2
      by_cases hc : e.id = cmd.id
      · rw [if_pos hc] at he
        exact Or.inr ⟨Nat.lt_of_not_le hm, Or.inl he.symm⟩
      · rw [if_neg hc] at he
        exact Or.inl (he ▸ (by assumption))
    · rw [if_neg ho, failedAttempt_eq] at hd
      simp only [updateById, List.mem_map] at hd
      obtain ⟨e, _, he⟩ := hd
      by_cases hc : e.id = cmd.id
      · rw [if_pos hc] at he
        exact Or.inr ⟨Nat.lt_of_not_le hm, Or.inr he.symm⟩
      · rw [if_neg hc] at he
        exact Or.inl (he ▸ (by assumption))

theorem drainLoop_mem (o : QueuedCommand → Bool) (snap : List QueuedCommand)
    (q : List QueuedCommand) (d : QueuedCommand)
    (hd : d ∈ drainLoop o q snap)
    (hq : ∀ e ∈ q, e.retryCount ≤ MAX_RETRIES ∧ e.status ≠ CmdStatus.success) :
    d.retryCount ≤ MAX_RETRIES ∧ d.status ≠ CmdStatus.success := by
  induction snap generalizing q with
  | nil => exact hq d hd
  | cons x t ih =>
    simp only [drainLoop, List.foldl_cons] at hd ih
    refine ih (processCmd o q x) hd ?_
    intro e he
    rcases processCmd_mem o q x e he with he2 | ⟨hlt, he2 | he2⟩
    · exact hq e he2
    · rw [he2]
      refine ⟨Nat.succ_le_of_lt hlt, ?_⟩
      intro hcon
      exact absurd hcon (by simp [attemptOf])
    · rw [he2]
      refine ⟨Nat.succ_le_of_lt hlt, ?_⟩
      intro hcon
      exact absurd hcon (by simp [failedAttempt])

/-- Every state reachable by the queue's operations keeps each command's
retry count at or below the ceiling and never stores the `success` status,
both in memory and in the durable store. -/
theorem reachable_invariant (s : QueueState) (h : Reachable s) :
    (∀ c ∈ s.queue, c.retryCount ≤ MAX_RETRIES ∧ c.status ≠ CmdStatus.success) ∧
    (∀ q, s.stored = some q →
      ∀ c ∈ q, c.retryCount ≤ MAX_RETRIES ∧ c.status ≠ CmdStatus.success) := by
  induction h with
  | init0 => exact ⟨by simp, by simp⟩
  | add id now deviceId command value h ih =>
    refine ⟨?_, ih.2⟩
    intro c hc
    simp only [addCommand, List.mem_append, List.mem_singleton] at hc
    rcases hc with hc | hc
    · exact ih.1 c hc
    · rw [hc]
      exact ⟨by simp [mkQueuedCommand, MAX_RETRIES], by simp [mkQueuedCommand]⟩
  | drain sendOk h ih =>
    rename_i s'
    unfold processQueue
    by_cases hg : (s'.processing || s'.queue.isEmpty) = true
    · rw [if_pos hg]
      exact ih
    · rw [if_neg hg]
      exact ⟨fun c hc => drainLoop_mem sendOk _ _ c hc ih.1, ih.2⟩
  | clear h ih =>
    refine ⟨by simp [clearQueue], ?_⟩
    intro q hq
    simp only [clearQueue] at hq
    cases hq
    simp
  | hydrate h ih =>
    rename_i s'
    unfold initQueue
    cases hst : s'.stored with
    | none => exact ih
    | some q =>
      refine ⟨fun c hc => ih.2 q hst c (by simpa using hc), fun q2 hq2 => ?_⟩
      have hqq : some q = some q2 := by simpa using hq2
      cases hqq
      exact ih.2 q hst
  | timer h ih =>
    rename_i s'
    unfold timerFire
    by_cases hp : s'.pendingSave
    · rw [if_pos hp]
      refine ⟨ih.1, ?_⟩
      intro q hq
      cases hq
      exact ih.1
    · rw [if_neg hp]
      exact ih

/-- C2 counterexample: with a transport that fails every attempt, after the
third failing drain pass the command is still visible in `snapshot()`
(status `failed`, `retryCount` 3) — it is not yet absent; it is only
removed by the next drain pass. -/
theorem queued_command_retained_after_three_failures :
    (drainSeq [failSend, failSend, failSend] demoState1).queue.map
        (fun c => (c.id, c.retryCount, c.status)) = [("id1", 3, CmdStatus.failed)] ∧
    entriesWithId (drainSeq [failSend, failSend, failSend] demoState1).queue "id1" ≠ [] := by
  exact ⟨by decide, by decide⟩

/-- C2 (amended): with an always-failing transport the first drain pass
leaves the enqueued command `failed` with `retryCount` 1; after three
failing passes it remains in the snapshot with `retryCount` 3 and status
`failed`; the fourth drain pass removes it; and in general any pending or
failed command is gone within four drain passes under arbitrary transport
outcomes — removed on success or dropped at the retry ceiling, never left
pending forever while drains keep occurring. -/
theorem queued_command_retry_lifecycle :
    ((processQueue failSend demoState1).queue.map
        (fun c => (c.id, c.retryCount, c.status)) = [("id1", 1, CmdStatus.failed)]) ∧
    ((drainSeq [failSend, failSend, failSend] demoState1).queue.map
        (fun c => (c.id, c.retryCount, c.status)) = [("id1", 3, CmdStatus.failed)]) ∧
    ((drainSeq [failSend, failSend, failSend, failSend] demoState1).queue = []) ∧
    (∀ (o1 o2 o3 o4 : QueuedCommand → Bool) (s : QueueState) (c : QueuedCommand),
        s.processing = false → entriesWithId s.queue c.id = [c] →
        (c.status = CmdStatus.pending ∨ c.status = CmdStatus.failed) →
        entriesWithId (processQueue o4 (processQueue o3 (processQueue o2
          (processQueue o1 s)))).queue c.id = []) := by
  refine ⟨by decide, by decide, by decide, ?_⟩
  intro o1 o2 o3 o4 s c hp hq hst
  exact four_drains_remove o1 o2 o3 o4 s c hp hq hst

/-- C2 witness: the scenario command is gone after four failing drains. -/
theorem queued_command_retry_lifecycle_witness :
    entriesWithId (processQueue failSend (processQueue failSend (processQueue failSend
      (processQueue failSend demoState1)))).queue "id1" = [] :=
  queued_command_retry_lifecycle.2.2.2 failSend failSend failSend failSend demoState1
    (mkQueuedCommand "id1" 0 "D1" "ARM" none) rfl (by decide) (Or.inl rfl)

/-- C4: `clearQueue` empties the queue, cancels any pending debounced
save, and writes the empty queue durably at once; a debounce timer firing
afterwards changes nothing, and a process restart re-hydrated from the
durable store yields an empty queue. -/
theorem clear_queue_immediate_persist (s : QueueState) :
    (clearQueue s).queue = [] ∧ (clearQueue s).pendingSave = false ∧
    (clearQueue s).stored = some [] ∧
    timerFire (clearQueue s) = clearQueue s ∧
    (initQueue (restartProcess (clearQueue s))).queue = [] ∧
    getQueuedCommands (initQueue (restartProcess (clearQueue s))) = [] :=
  ⟨rfl, rfl, rfl, rfl, rfl, rfl⟩

/-- C8: in every reachable state each queued command's `retryCount` is at
most `MAX_RETRIES`; a pending/failed entry already at the ceiling is
removed (not attempted) by the next drain pass; `retryCount` starts at 0
at enqueue; and the increment to the retry count happens on the command
handed to the transport, before the attempt's outcome is known. -/
theorem retry_ceiling_invariant :
    (∀ s : QueueState, Reachable s → ∀ c ∈ s.queue, c.retryCount ≤ MAX_RETRIES) ∧
    (∀ (o : QueuedCommand → Bool) (q : List QueuedCommand) (c : QueuedCommand),
        entriesWithId q c.id = [c] →
        (c.status = CmdStatus.pending ∨ c.status = CmdStatus.failed) →
        MAX_RETRIES ≤ c.retryCount →
        entriesWithId (drainLoop o q (pendingSnapshot q)) c.id = []) ∧
    (∀ (id : String) (now : Nat) (deviceId command : String) (value : Option String),
        (mkQueuedCommand id now deviceId command value).retryCount = 0) ∧
    (∀ c : QueuedCommand,
        (attemptOf c).retryCount = c.retryCount + 1 ∧
        (attemptOf c).status = CmdStatus.sending) := by
  refine ⟨?_, ?_, fun _ _ _ _ _ => rfl, fun c => ⟨rfl, rfl⟩⟩
  · intro s hs c hc
    exact ((reachable_invariant s hs).1 c hc).1
  · intro o q c hq hst hm
    rw [drainLoop_pass_progress o q c hq hst, if_pos hm]

/-- C8 witness: a failed command at the retry ceiling is dropped by the
next drain pass. -/
theorem retry_ceiling_invariant_witness :
    entriesWithId (drainLoop failSend
      [{ id := "id1", deviceId := "D1", command := "ARM", value := none,
         timestamp := 0, retryCount := 3, status := CmdStatus.failed }]
      (pendingSnapshot
        [{ id := "id1", deviceId := "D1", command := "ARM", value := none,
           timestamp := 0, retryCount := 3, status := CmdStatus.failed }])) "id1" = [] :=
  retry_ceiling_invariant.2.1 failSend _
    { id := "id1", deviceId := "D1", command := "ARM", value := none,
      timestamp := 0, retryCount := 3, status := CmdStatus.failed }
    (by decide) (Or.inr rfl) (by decide)

/-- C9: the `processing` flag guards the drain: a `processQueue` call on a
state whose flag is held returns the state unchanged (no queue mutation);
the flag is back to its caller-visible value when a pass completes; every
mid-pass state holds the flag, and a drain call arriving at any such
moment is a no-op. -/
theorem drain_reentrancy_guard :
    (∀ (o : QueuedCommand → Bool) (s : QueueState),
        s.processing = true → processQueue o s = s) ∧
    (∀ (o : QueuedCommand → Bool) (s : QueueState),
        (processQueue o s).processing = s.processing) ∧
    (∀ (o : QueuedCommand → Bool) (s : QueueState) (i : Nat),
        (drainMidState o s i).processing = true) ∧
    (∀ (o o' : QueuedCommand → Bool) (s : QueueState) (i : Nat),
        processQueue o' (drainMidState o s i) = drainMidState o s i) := by
  have h1 : ∀ (o : QueuedCommand → Bool) (s : QueueState),
      s.processing = true → processQueue o s = s := by
    intro o s hp
    unfold processQueue
    rw [hp]
    rfl
  exact ⟨h1, processQueue_processing, fun _ _ _ => rfl, fun o o' s i => h1 o' _ rfl⟩

/-- C9 witness: a drain call while the flag is held is a no-op. -/
theorem drain_reentrancy_guard_witness :
    processQueue failSend { demoState1 with processing := true } =
      { demoState1 with processing := true } :=
  drain_reentrancy_guard.1 failSend { demoState1 with processing := true } rfl

/-- C10: no reachable queue state stores a command with status `success`
(the declared value is never assigned); the observable statuses are only
`pending`, `sending` and `failed`; on a successful delivery the command is
removed from the queue directly. -/
theorem no_success_status_invariant :
    (∀ s : QueueState, Reachable s → ∀ c ∈ s.queue, c.status ≠ CmdStatus.success) ∧
    (∀ s : QueueState, Reachable s → ∀ c ∈ s.queue,
        c.status = CmdStatus.pending ∨ c.status = CmdStatus.sending ∨
          c.status = CmdStatus.failed) ∧
    (∀ (o : QueuedCommand → Bool) (q : List QueuedCommand) (cmd : QueuedCommand),
        cmd.retryCount < MAX_RETRIES → o (attemptOf cmd) = true →
        entriesWithId (processCmd o q cmd) cmd.id = []) := by
  refine ⟨?_, ?_, ?_⟩
  · intro s hs c hc
    exact ((reachable_invariant s hs).1 c hc).2
  · intro s hs c hc
    have hns := ((reachable_invariant s hs).1 c hc).2
    cases hcs : c.status with
    | pending => exact Or.inl rfl
    | sending => exact Or.inr (Or.inl rfl)
    | failed => exact Or.inr (Or.inr rfl)
    | success => exact absurd hcs hns
  · intro o q cmd hm ho
    unfold processCmd
    rw [if_neg (by omega : ¬ MAX_RETRIES ≤ cmd.retryCount), if_pos ho]
    exact entriesWithId_filter_ne_self _ cmd.id

/-- C10 witness: a successful delivery removes the command. -/
theorem no_success_status_invariant_witness :
    entriesWithId (processCmd (fun _ => true)
      [mkQueuedCommand "id1" 0 "D1" "ARM" none]
      (mkQueuedCommand "id1" 0 "D1" "ARM" none)) "id1" = [] :=
  no_success_status_invariant.2.2 (fun _ => true) _ _ (by decide) rfl

/-! ## Theorems: request deduplication and the credential cache -/

theorem cleanupCache_execs (now : Nat) (s : CoordState) :
    (cleanupCache now s).execs = s.execs := by
  cases hr : s.registry with
  | none => simp [cleanupCache, hr]
  | some e =>
    obtain ⟨p, t⟩ := e
    by_cases h : REQUEST_CACHE_TTL < now - t
    · simp [cleanupCache, hr, h]
    · simp [cleanupCache, hr, h]

theorem cleanupCache_nextId (now : Nat) (s : CoordState) :
    (cleanupCache now s).nextId = s.nextId := by
  cases hr : s.registry with
  | none => simp [cleanupCache, hr]
  | some e =>
    obtain ⟨p, t⟩ := e
    by_cases h : REQUEST_CACHE_TTL < now - t
    · simp [cleanupCache, hr, h]
    · simp [cleanupCache, hr, h]

theorem coordCall_hit (s : CoordState) (pid ts now : Nat)
    (hreg : s.registry = some (pid, ts)) (hfresh : now - ts < REQUEST_CACHE_TTL) :
    coordCall now s = (pid, s) := by
  simp only [coordCall, hreg]
  rw [if_pos hfresh]

theorem coordCalls_window (p1 t1 : Nat) (s1 : CoordState)
    (hreg : s1.registry = some (p1, t1)) (ts : List Nat)
    (hw : ∀ t ∈ ts, t - t1 < REQUEST_CACHE_TTL) :
    (coordCalls ts s1).1 = ts.map (fun _ => p1) ∧ (coordCalls ts s1).2 = s1 := by
  induction ts with
  | nil => exact ⟨rfl, rfl⟩
  | cons t ts ih =>
    have hcall : coordCall t s1 = (p1, s1) :=
      coordCall_hit s1 p1 t1 t hreg (hw t (List.mem_cons_self t ts))
    obtain ⟨h1, h2⟩ := ih (fun t' ht' => hw t' (List.mem_cons_of_mem t ht'))
    simp [coordCalls, hcall, List.map, h1, h2]

/-- C1: while an unexpired entry is registered for the key, a call returns
the registered promise without running the network factory; starting with
an empty registry, one call plus any burst of calls inside the TTL window
runs the factory exactly once and hands every caller the same promise
(hence the same settled outcome, errors included); a settling promise
deletes the key's entry, and a call after settlement — or one finding the
entry expired — runs the factory afresh. -/
theorem request_coordination_single_flight :
    (∀ (s : CoordState) (pid ts now : Nat), s.registry = some (pid, ts) →
        now - ts < REQUEST_CACHE_TTL → coordCall now s = (pid, s)) ∧
    (∀ (s0 : CoordState) (t1 : Nat) (ts : List Nat), s0.registry = none →
        (∀ t ∈ ts, t - t1 < REQUEST_CACHE_TTL) →
        (coordCalls ts (coordCall t1 s0).2).1 =
          ts.map (fun _ => (coordCall t1 s0).1) ∧
        (coordCalls ts (coordCall t1 s0).2).2.execs = s0.execs + 1 ∧
        (coordCall t1 s0).2.execs = s0.execs + 1) ∧
    (∀ s : CoordState, (coordSettle s).registry = none) ∧
    (∀ (s : CoordState) (now : Nat),
        (coordCall now (coordSettle s)).2.execs = (coordSettle s).execs + 1) ∧
    (∀ (s : CoordState) (pid ts now : Nat), s.registry = some (pid, ts) →
        REQUEST_CACHE_TTL ≤ now - ts →
        (coordCall now s).2.execs = s.execs + 1) := by
  refine ⟨coordCall_hit, ?_, fun _ => rfl, fun s now => rfl, ?_⟩
  · intro s0 t1 ts h0 hw
    have hc : coordCall t1 s0 =
        (s0.nextId, { registry := some (s0.nextId, t1), nextId := s0.nextId + 1,
                      execs := s0.execs + 1 }) := by
      simp [coordCall, cleanupCache, h0]
    rw [hc]
    obtain ⟨h1, h2⟩ := coordCalls_window s0.nextId t1
      { registry := some (s0.nextId, t1), nextId := s0.nextId + 1,
        execs := s0.execs + 1 } rfl ts hw
    exact ⟨h1, by rw [h2], rfl⟩
  · intro s pid ts now hreg hstale
    simp only [coordCall, hreg]
    rw [if_neg (by omega)]
    simp only [cleanupCache_execs]

/-- C1 witness: a second call 200ms into the 1000ms window is answered
from the registry without a fresh factory execution. -/
theorem request_coordination_single_flight_witness :
    coordCall 300 { registry := some (5, 100), nextId := 6, execs := 1 } =
      (5, { registry := some (5, 100), nextId := 6, execs := 1 }) :=
  request_coordination_single_flight.1 _ 5 100 300 rfl (by decide)

theorem tokenCalls_joined (n : Nat) (s : TokenCacheState) (pid : Nat)
    (hc : s.cachedAuthToken = none) (hp : s.tokenCachePromise = some pid) :
    tokenCalls n s = (List.replicate n (TokenResult.promise pid), s) := by
  induction n with
  | zero => rfl
  | succ n ih =>
    have hcall : initializeTokenCache s = (.promise pid, s) := by
      unfold initializeTokenCache
      rw [hc, hp]
    simp [tokenCalls, hcall, ih, List.replicate_succ]

/-- C6: from a cold cache, a batch of `n + 1` token reads with the durable
store still unresolved performs exactly one durable read, hands every
caller the same memoized promise, and the eventual resolution gives all of
them the same token value. -/
theorem token_cache_single_flight (s0 : TokenCacheState)
    (hc : s0.cachedAuthToken = none) (hp : s0.tokenCachePromise = none) (n : Nat) :
    (tokenCalls (n + 1) s0).2.durableReads = s0.durableReads + 1 ∧
    (tokenCalls (n + 1) s0).1 = List.replicate (n + 1) (TokenResult.promise s0.nextId) ∧
    ∀ tok, (tokenResolve tok (tokenCalls (n + 1) s0).2).cachedAuthToken = tok := by
  have hcall : initializeTokenCache s0 =
      (.promise s0.nextId,
       { s0 with tokenCachePromise := some s0.nextId, nextId := s0.nextId + 1,
                 durableReads := s0.durableReads + 1 }) := by
    unfold initializeTokenCache
    rw [hc, hp]
  have hrest := tokenCalls_joined n
    { s0 with tokenCachePromise := some s0.nextId, nextId := s0.nextId + 1,
              durableReads := s0.durableReads + 1 } s0.nextId hc rfl
  refine ⟨?_, ?_, fun tok => rfl⟩
  · simp only [tokenCalls, hcall, hrest]
  · simp only [tokenCalls, hcall, hrest, List.replicate_succ]

/-- C6 witness: two cold concurrent reads cause one durable read. -/
theorem token_cache_single_flight_witness :
    (tokenCalls 2 { cachedAuthToken := none, tokenCachePromise := none,
                    nextId := 0, durableReads := 0 }).2.durableReads = 1 ∧
    (tokenCalls 2 { cachedAuthToken := none, tokenCachePromise := none,
                    nextId := 0, durableReads := 0 }).1 =
      [TokenResult.promise 0, TokenResult.promise 0] :=
  ⟨(token_cache_single_flight _ rfl rfl 1).1,
   (token_cache_single_flight _ rfl rfl 1).2.1⟩

/-- C3 counterexample: in the 401 handler the in-memory clear is not
performed before the durable update — the durable removal is awaited
first, and only then is the cached token cleared. -/
theorem auth401_order_counterexample :
    ¬ ((handle401 authDemo).2.indexOf AuthAction.memoryClear <
        (handle401 authDemo).2.indexOf AuthAction.durableRemove) := by
  decide

/-- C3 (amended): the 401 handler first completes the durable removal and
then clears the in-memory credential; once the handler has run, the cached
token, the memoized read promise and both durable entries are gone, so a
subsequent token read (which re-consults the now-empty durable store)
observes `none`, never the old token. -/
theorem auth401_clear_consistency :
    ((handle401 authDemo).2 = [AuthAction.durableRemove, AuthAction.memoryClear]) ∧
    (∀ s : AuthState,
        (handle401 s).1.cache.cachedAuthToken = none ∧
        (handle401 s).1.cache.tokenCachePromise = none ∧
        (handle401 s).1.storedToken = none ∧
        (handle401 s).1.storedUser = none) ∧
    (∀ s : AuthState, (readTokenRound (handle401 s).1).1 = none) :=
  ⟨rfl, fun _ => ⟨rfl, rfl, rfl, rfl⟩, fun _ => rfl⟩
